import Mathlib

/-!
Verification of the ark-api streaming core
(`ark_api/api/v1/openai.py` and `ark_api/api/v1/queries.py`).

Resources are modelled as the dictionaries the code reads: optional fields
are `Option`, annotation dictionaries are association lists, and the async
collaborator (`ark_client`) is a record of fetch functions returning
`Except ArkErr _` (an `.error` models the collaborator raising).  Python
truthiness of strings (`if s:`) is modelled by comparing with `""`.
Streamed text is modelled as `List Char`; the generators of the two relay
paths become functions from the upstream status and body (or chunk
sequence) to the list of events they yield.
-/

namespace ArkApi

/-- An exception raised by the resource collaborator (network failure,
not-found, validation failure ...) or by library code (`ValueError`). -/
structure ArkErr where
  msg : String
deriving Repr, DecidableEq

/-- Dictionary access `dict.get(key)` over an association list of string
keys and values. -/
def lookupKey : List (String × String) → String → Option String
  | [], _ => none
  | (k, v) :: rest, key => if k = key then some v else lookupKey rest key

/-- The `spec.memory` reference of a query: it may itself lack a name. -/
structure MemorySpecRef where
  name : Option String
deriving Repr, DecidableEq

/-- Fields of a query resource dictionary that the streaming code reads:
the annotations dictionary of `metadata`, the `metadata.uid`, the
`spec.memory` reference and the `spec.sessionId`. -/
structure QueryResource where
  annots : List (String × String)
  uid : Option String
  memoryRef : Option MemorySpecRef
  sessionId : Option String
deriving Repr, DecidableEq

/-- Fields of a memory resource dictionary that the streaming code reads:
the annotations dictionary of `metadata` and `status.lastResolvedAddress`. -/
structure MemoryResource where
  annots : List (String × String)
  lastResolvedAddress : Option String
deriving Repr, DecidableEq

/-- The namespaced resource collaborator: `ark_client.queries.a_get` and
`ark_client.memories.a_get`.  An `.error` result models any exception the
call can raise. -/
structure ArkClient where
  getQuery : String → Except ArkErr QueryResource
  getMemory : String → Except ArkErr MemoryResource

/-- The memory capability annotation key read by `try_get_streaming_url`
(openai.py line 80). -/
def memoryEventStreamKey : String := "ark.mckinsey.com/memory-event-stream-enabled"

/-- The streaming annotation key on query resources (queries.py line 247;
openai.py line 131 writes the same key through the imported constant
STREAMING_ENABLED_ANNOTATION, whose defining module is not among the
sources). -/
def streamingEnabledKey : String := "ark.mckinsey.com/streaming-enabled"

/-- Memory-name resolution shared by openai.py lines 68-72 and queries.py
lines 253-258: `spec.memory.name` when present and truthy, else `"default"`.
Python truthiness makes an empty-string name fall back to `"default"`. -/
def resolveMemoryName (q : QueryResource) : String :=
  match q.memoryRef with
  | some ms =>
    match ms.name with
    | some n => if n = "" then "default" else n
    | none => "default"
  | none => "default"

/-- Body of `try_get_streaming_url` (openai.py lines 62-94), i.e. the code
inside the `try:` block, before the `except` handler: each collaborator
failure propagates as `.error`. -/
def try_get_streaming_url_body (c : ArkClient) (query_name : String) :
    Except ArkErr (Option String) :=
  match c.getQuery query_name with
  | .error e => .error e
  | .ok q =>
    let memory_name := resolveMemoryName q
    match c.getMemory memory_name with
    | .error e => .error e
    | .ok m =>
      let streaming_enabled := lookupKey m.annots memoryEventStreamKey = some "true"
      if streaming_enabled then
        match m.lastResolvedAddress with
        | some base_url =>
          if base_url = "" then .ok none
          else .ok (some (base_url ++ "/stream/" ++ query_name ++
            "?from-beginning=true&wait-for-query=30s"))
        | none => .ok none
      else .ok none

/-- Function `try_get_streaming_url` (openai.py lines 60-98): the body
wrapped in `try: ... except Exception: return None`. -/
def try_get_streaming_url (c : ArkClient) (query_name : String) : Option String :=
  match try_get_streaming_url_body c query_name with
  | .ok r => r
  | .error _ => none

/-- A collaborator whose every call raises. -/
def clientAllFail : ArkClient where
  getQuery := fun _ => .error ⟨"connection refused"⟩
  getMemory := fun _ => .error ⟨"connection refused"⟩

/-- A query resource with no memory reference, no session id, no
annotations. -/
def plainQuery : QueryResource where
  annots := []
  uid := some "uid-1"
  memoryRef := none
  sessionId := none

/-- A collaborator whose memory fetch raises. -/
def clientMemFail : ArkClient where
  getQuery := fun _ => .ok plainQuery
  getMemory := fun _ => .error ⟨"not found"⟩

/-- A collaborator whose memory has no capability annotation. -/
def clientNoCap : ArkClient where
  getQuery := fun _ => .ok plainQuery
  getMemory := fun _ => .ok ⟨[], some "https://mem.example"⟩

/-- A collaborator whose memory enables streaming at `https://mem.example`. -/
def clientStreamReady : ArkClient where
  getQuery := fun _ => .ok plainQuery
  getMemory := fun _ =>
    .ok ⟨[("ark.mckinsey.com/memory-event-stream-enabled", "true")], some "https://mem.example"⟩

/-! ## The event-stream relay

The two proxy generators (`proxy_streaming_response` in openai.py and
`stream_proxy` in queries.py) work on line-delimited text.  Text is a
`List Char`; a generator becomes the list of events it yields. -/

/-- Splitting as Python `str.split("\n")`: always a non-empty list of
parts, one more part than there are newline characters. -/
def splitNl : List Char → List (List Char)
  | [] => [[]]
  | c :: rest =>
    let ps := splitNl rest
    if c = '\n' then [] :: ps
    else (c :: ps.headD []) :: ps.tail

/-- The part of a text after its last newline (the remainder that is not a
complete line). -/
def lastPart (b : List Char) : List Char := (splitNl b).getLastD []

/-- Splitting as Python `buffer.split("\n", 1)` guarded by
`"\n" in buffer`: the first line and the rest, or `none` when the buffer
holds no newline. -/
def splitFirstNl : List Char → Option (List Char × List Char)
  | [] => none
  | c :: rest =>
    if c = '\n' then some ([], rest)
    else (splitFirstNl rest).map (fun p => (c :: p.1, p.2))

/-- Python `line.strip()` is falsy exactly when every character of the
line is whitespace. -/
def isBlank (l : List Char) : Bool := l.all (fun c => c.isWhitespace)

/-- The `while "\n" in buffer` loop of `stream_proxy` (queries.py lines
291-294): yields each complete line that is non-blank, newline-terminated,
and returns the remaining buffer. -/
def processBuffer (buffer : List Char) : List (List Char) × List Char :=
  match h : splitFirstNl buffer with
  | none => ([], buffer)
  | some (line, rest) =>
    let r := processBuffer rest
    (if isBlank line then r.1 else (line ++ ['\n']) :: r.1, r.2)
termination_by buffer.length
decreasing_by
  have key : ∀ (b l r : List Char), splitFirstNl b = some (l, r) → r.length < b.length := by
    intro b
    induction b with
    | nil => intro l r h2; simp [splitFirstNl] at h2
    | cons c rest2 ih =>
      intro l r h2
      by_cases hc : c = '\n'
      · rw [splitFirstNl, if_pos hc] at h2
        injection h2 with h'
        have hr : rest2 = r := congrArg Prod.snd h'
        subst hr
        simp
      · rw [splitFirstNl, if_neg hc] at h2
        cases hrest : splitFirstNl rest2 with
        | none => rw [hrest] at h2; simp at h2
        | some p =>
          rw [hrest] at h2
          injection h2 with h'
          have hr : p.2 = r := congrArg Prod.snd h'
          have hlt := ih p.1 p.2 (by rw [hrest])
          rw [← hr]
          calc p.2.length < rest2.length := hlt
            _ < (c :: rest2).length := by simp
  exact key buffer line rest h

/-- The `async for chunk in response.aiter_text()` loop of `stream_proxy`
(queries.py lines 286-294): the buffer accumulates chunks, only complete
lines are emitted, and when the upstream closes the final buffer is
discarded (never yielded). -/
def stream_proxy_run : List Char → List (List Char) → List (List Char)
  | _, [] => []
  | buffer, chunk :: rest =>
    let pr := processBuffer (buffer ++ chunk)
    pr.1 ++ stream_proxy_run pr.2 rest

/-- The buffer `stream_proxy` is left holding when the upstream closes. -/
def stream_proxy_final_buffer : List Char → List (List Char) → List Char
  | buffer, [] => buffer
  | buffer, chunk :: rest =>
    stream_proxy_final_buffer (processBuffer (buffer ++ chunk)).2 rest

/-- The synthetic `data:` error event `stream_proxy` yields when the
upstream status is not 200 (queries.py line 283). -/
def memoryErrorEvent (status : Nat) : List Char :=
  ("data: \x7b\"error\": \"Memory service returned " ++ toString status ++ "\"\x7d\n\n").data

/-- Generator `stream_proxy` (queries.py lines 277-297) as a function from
the upstream status and chunk sequence to the list of yielded events.  (The
outer `try/except` around the connection is outside this model: the chunk
sequence is the text the upstream delivered.) -/
def stream_proxy (status : Nat) (chunks : List (List Char)) : List (List Char) :=
  if status ≠ 200 then [memoryErrorEvent status]
  else stream_proxy_run [] chunks

/-- Lines as `response.aiter_lines()` yields them: without their
terminators; a trailing newline does not produce a final empty line.
(httpx also honours `\r` line endings; the model splits on `\n` only, so a
`\r` is ordinary line content here.  `aiter_lines` buffers across chunk
boundaries internally, so it is a function of the whole body text.) -/
def aiterLines (body : List Char) : List (List Char) :=
  let ps := splitNl body
  if ps.getLast? = some [] then ps.dropLast else ps

/-- The `async for line in response.aiter_lines()` loop of
`proxy_streaming_response` (openai.py lines 110-113): each line that is
non-blank after `strip()` is yielded with the SSE double-newline
terminator appended. -/
def relayLines : List (List Char) → List (List Char)
  | [] => []
  | l :: ls =>
    if isBlank l then relayLines ls
    else (l ++ ['\n', '\n']) :: relayLines ls

/-- Generator `proxy_streaming_response` (openai.py lines 101-113) as a
function from the upstream status and body text to the list of yielded
events: on a non-200 status the generator returns at once and yields
nothing. -/
def proxy_streaming_response (status : Nat) (body : List Char) : List (List Char) :=
  if status ≠ 200 then []
  else relayLines (aiterLines body)

/-! ## The raw streaming endpoint `stream_query` -/

/-- An `HTTPException` raised by an endpoint: status code and detail. -/
structure HttpError where
  status : Nat
  detail : String
deriving Repr, DecidableEq

/-- The response `stream_query` returns on success (queries.py lines
299-308): media type, headers, and the memory-service URL its proxy
generator will connect to. -/
structure StreamQueryResponse where
  mediaType : String
  headers : List (String × String)
  upstreamUrl : String
deriving Repr, DecidableEq

/-- Outcome of a `stream_query` request: an `HTTPException`, a propagated
collaborator exception (handled by the `handle_k8s_errors` decorator
outside this model), or a streaming response. -/
inductive StreamQueryOutcome where
  | http : HttpError → StreamQueryOutcome
  | collab : ArkErr → StreamQueryOutcome
  | ok : StreamQueryResponse → StreamQueryOutcome
deriving Repr, DecidableEq

/-- Session-id derivation of queries.py line 272:
`spec.sessionId or str(metadata.get("uid", ""))`. -/
def sessionIdOf (q : QueryResource) : String :=
  match q.sessionId with
  | some s => if s = "" then q.uid.getD "" else s
  | none => q.uid.getD ""

/-- Endpoint `stream_query` (queries.py lines 236-308) given the fetched
query resource and the memory fetch function.  The query fetch itself
(line 242) is taken as already successful; its failure is handled by the
`handle_k8s_errors` decorator outside this model. -/
def stream_query (q : QueryResource)
    (getMemory : String → Except ArkErr MemoryResource) : StreamQueryOutcome :=
  let streaming_enabled := lookupKey q.annots streamingEnabledKey = some "true"
  if streaming_enabled then
    let memory_name := resolveMemoryName q
    match getMemory memory_name with
    | .error e => .collab e
    | .ok m =>
      match m.lastResolvedAddress with
      | some base_url =>
        if base_url = "" then .http ⟨502, "Memory service address not resolved"⟩
        else
          .ok ⟨"text/plain; charset=utf-8",
            [("Cache-Control", "no-cache"), ("Connection", "keep-alive"),
              ("Access-Control-Allow-Origin", "*"), ("Access-Control-Allow-Headers", "*")],
            base_url ++ "/stream/" ++ sessionIdOf q⟩
      | none => .http ⟨502, "Memory service address not resolved"⟩
  else .http ⟨400, "Streaming not enabled for this query"⟩

/-- A query resource whose streaming annotation is set. -/
def streamOnQuery : QueryResource where
  annots := [("ark.mckinsey.com/streaming-enabled", "true")]
  uid := some "uid-1"
  memoryRef := none
  sessionId := none

/-- A memory fetch that always raises. -/
def getMemoryFail : String → Except ArkErr MemoryResource := fun _ => .error ⟨"boom"⟩

/-- A memory fetch returning a memory without a resolved address. -/
def getMemoryNoAddr : String → Except ArkErr MemoryResource := fun _ => .ok ⟨[], none⟩

/-- A memory fetch returning a memory with a resolved address and no
capability annotation. -/
def getMemoryAddr : String → Except ArkErr MemoryResource :=
  fun _ => .ok ⟨[], some "http://mem:8080"⟩

/-- A memory fetch returning the same resolved address with the capability
annotation explicitly set to "false". -/
def getMemoryAddrOther : String → Except ArkErr MemoryResource :=
  fun _ =>
    .ok ⟨[("ark.mckinsey.com/memory-event-stream-enabled", "false")], some "http://mem:8080"⟩

/-! ## Timestamp parsing and the models listing -/

/-- Metadata of a listed resource: `metadata["name"]` (a direct subscript,
raising `KeyError` when absent) and the optional `creationTimestamp` read
by `_parse_timestamp`. -/
structure ResMeta where
  name : Option String
  creationTimestamp : Option String
deriving Repr, DecidableEq

/-- A broken-down time as produced by `time.strptime`. -/
structure TmStruct where
  year : Nat
  month : Nat
  day : Nat
  hour : Nat
  minute : Nat
  second : Nat
deriving Repr, DecidableEq

/-- Take at most `k` leading decimal digits. -/
def takeDigits : Nat → List Char → List Char × List Char
  | 0, cs => ([], cs)
  | _ + 1, [] => ([], [])
  | k + 1, c :: cs =>
    if c.isDigit then
      let p := takeDigits k cs
      (c :: p.1, p.2)
    else ([], c :: cs)

/-- Decimal value of a digit string. -/
def digitsToNat (ds : List Char) : Nat :=
  ds.foldl (fun acc c => acc * 10 + (c.toNat - 48)) 0

/-- The `%Y` directive of CPython strptime: exactly four digits. -/
def parseYear (cs : List Char) : Option (Nat × List Char) :=
  let p := takeDigits 4 cs
  if p.1.length = 4 then some (digitsToNat p.1, p.2) else none

/-- A one-or-two-digit numeric directive of CPython strptime with the
range `lo..hi` it accepts (the regex alternations of `Lib/_strptime.py`
come to greedy one-or-two digits plus this range check, because the
character after each numeric field in the fixed format is never a digit). -/
def parseField (lo hi : Nat) (cs : List Char) : Option (Nat × List Char) :=
  let p := takeDigits 2 cs
  if p.1 = [] then none
  else
    let v := digitsToNat p.1
    if lo ≤ v && v ≤ hi then some (v, p.2) else none

/-- Require a literal character. -/
def expectChar (c : Char) : List Char → Option (List Char)
  | [] => none
  | x :: xs => if x = c then some xs else none

/-- Parsing `time.strptime(s, "%Y-%m-%dT%H:%M:%SZ")` (openai.py line 24
fixes the format): `none` models the `ValueError` CPython raises on a
mismatch, including trailing text after the full match. -/
def strptimeIso (s : String) : Option TmStruct := do
  let (y, r1) ← parseYear s.data
  let r2 ← expectChar '-' r1
  let (mo, r3) ← parseField 1 12 r2
  let r4 ← expectChar '-' r3
  let (d, r5) ← parseField 1 31 r4
  let r6 ← expectChar 'T' r5
  let (h, r7) ← parseField 0 23 r6
  let r8 ← expectChar ':' r7
  let (mi, r9) ← parseField 0 59 r8
  let r10 ← expectChar ':' r9
  let (sec, r11) ← parseField 0 61 r10
  let r12 ← expectChar 'Z' r11
  if r12 = [] then some ⟨y, mo, d, h, mi, sec⟩ else none

/-- Day count of a civil date from 1970-01-01 (Gregorian). -/
def daysFromCivil (y m d : Int) : Int :=
  let yy := y - (if m ≤ 2 then 1 else 0)
  let era := Int.fdiv yy 400
  let yoe := yy - era * 400
  let doy := Int.fdiv (153 * (m + (if m > 2 then (-3 : Int) else 9)) + 2) 5 + d - 1
  let doe := yoe * 365 + Int.fdiv yoe 4 - Int.fdiv yoe 100 + doy
  era * 146097 + doe - 719468

/-- Conversion `int(time.mktime(t))`, modelled as the UTC epoch second of
the broken-down time (the real call uses the server's local timezone; no
claim depends on the offset). -/
def mktimeModel (t : TmStruct) : Int :=
  daysFromCivil t.year t.month t.day * 86400 +
    (t.hour : Int) * 3600 + (t.minute : Int) * 60 + (t.second : Int)

/-- Helper `_parse_timestamp` (openai.py lines 27-34).  There is no
`try/except` around `time.strptime`: a present but malformed timestamp
raises `ValueError`, modelled as `.error`; only an absent (or empty, by
Python truthiness) timestamp falls back to the current time `now`. -/
def _parse_timestamp (metadata : ResMeta) (now : Int) : Except ArkErr Int :=
  match metadata.creationTimestamp with
  | some ts =>
    if ts = "" then .ok now
    else
      match strptimeIso ts with
      | some t => .ok (mktimeModel t)
      | none => .error ⟨"ValueError: time data does not match format"⟩
  | none => .ok now

/-- A model entry as built by `_create_model_entry` (openai.py lines
37-44). -/
structure ModelEntry where
  id : String
  object : String
  created : Int
  owned_by : String
deriving Repr, DecidableEq

/-- Helper `_create_model_entry`, which can raise through
`_parse_timestamp`. -/
def _create_model_entry (resource_id : String) (metadata : ResMeta) (now : Int) :
    Except ArkErr ModelEntry :=
  match _parse_timestamp metadata now with
  | .error e => .error e
  | .ok ts => .ok ⟨resource_id, "model", ts, "ark"⟩

/-- One per-kind `for` loop of `list_models` (openai.py lines 185-218):
entries accumulate one by one; an exception (a missing `metadata["name"]`
or a timestamp parse error) aborts the loop, keeping the entries already
appended. -/
def collectEntries (kindTag : String) (now : Int) : List ResMeta → List ModelEntry
  | [] => []
  | md :: rest =>
    match md.name with
    | none => []
    | some n =>
      match _create_model_entry (kindTag ++ "/" ++ n) md now with
      | .error _ => []
      | .ok entry => entry :: collectEntries kindTag now rest

/-- A per-kind block of `list_models`: `try: ... except: logger.error(...)`
around the list call and its loop — a failing list call contributes zero
entries and does not fail the request. -/
def collectKind (kindTag : String) (now : Int)
    (listed : Except ArkErr (List ResMeta)) : List ModelEntry :=
  match listed with
  | .error _ => []
  | .ok items => collectEntries kindTag now items

/-- Endpoint `list_models` (openai.py lines 178-220): the `data` list of
the response, aggregating the four kinds in order. -/
def list_models (now : Int)
    (agents teams models tools : Except ArkErr (List ResMeta)) : List ModelEntry :=
  collectKind "agent" now agents ++ collectKind "team" now teams ++
    collectKind "model" now models ++ collectKind "tool" now tools

/-- A listed item that raises nowhere: it has a name, and its timestamp is
absent, empty, or parseable. -/
def cleanItem (md : ResMeta) : Bool :=
  md.name.isSome &&
    (match md.creationTimestamp with
     | none => true
     | some ts => ts = "" || (strptimeIso ts).isSome)

/-- A per-kind listing result whose items all satisfy `cleanItem` (an
`.error` is vacuously clean). -/
def cleanListing : Except ArkErr (List ResMeta) → Bool
  | .error _ => true
  | .ok items => items.all cleanItem

/-- The entries the spec promises for one kind: zero for a failing kind,
and one id-prefixed entry per item of a succeeding kind. -/
def listedEntries (kindTag : String) (now : Int) :
    Except ArkErr (List ResMeta) → List ModelEntry
  | .error _ => []
  | .ok items => items.map (fun md =>
      ⟨kindTag ++ "/" ++ md.name.getD "", "model",
        (match _parse_timestamp md now with | .ok v => v | .error _ => now), "ark"⟩)

/-! ## The chat-completions endpoint -/

/-- A chat message of the OpenAI-compatible request body. -/
structure ChatMessage where
  role : String
  content : String

/-- The OpenAI-compatible request body (openai.py lines 52-57).
`temperature` and `max_tokens` are accepted and never read. -/
structure ChatCompletionRequest where
  model : String
  messages : List ChatMessage
  temperature : Float
  max_tokens : Option Nat
  stream : Bool

/-- The namespace-relevant effects of `chat_completions`: the namespace the
collaborator client is opened with, the name/namespace/annotations of the
created query resource, the flattened input text, and the namespace the
streaming lookup runs in (when `stream=true`). -/
structure ChatCompletionsPlan where
  clientNamespace : String
  queryName : String
  queryNamespace : String
  queryAnnots : List (String × String)
  inputText : String
  streamingLookupNamespace : Option String

/-- Endpoint `chat_completions` (openai.py lines 116-169), restricted to
its resource-addressing effects.  Line 128 hardcodes namespace `"default"`
in the created query's metadata; line 143 opens the collaborator client
with `with_ark_client("default", ...)`, and every `a_get`/`a_create` of
the handler — including the streaming lookup of `try_get_streaming_url`
at line 150 — goes through that client.  `uuidHex` stands for the
generated `uuid.uuid4().hex[:8]` suffix. -/
def chat_completions (request : ChatCompletionRequest) (uuidHex : String) :
    ChatCompletionsPlan :=
  let input_text := String.intercalate "\n"
    (request.messages.map (fun msg => msg.role ++ ": " ++ msg.content))
  let query_name := "openai-query-" ++ uuidHex
  { clientNamespace := "default"
    queryName := query_name
    queryNamespace := "default"
    queryAnnots := if request.stream then [(streamingEnabledKey, "true")] else []
    inputText := input_text
    streamingLookupNamespace := if request.stream then some "default" else none }

end ArkApi

namespace ArkApi

/-! ## Splitting lemmas for the relay -/

theorem splitNl_ne_nil (b : List Char) : splitNl b ≠ [] := by
  cases b with
  | nil => simp [splitNl]
  | cons c rest =>
    rw [splitNl]
    by_cases hc : c = '\n' <;> simp [hc]

theorem splitFirstNl_length : ∀ (b l r : List Char),
    splitFirstNl b = some (l, r) → r.length < b.length := by
  intro b
  induction b with
  | nil => intro l r h; simp [splitFirstNl] at h
  | cons c rest ih =>
    intro l r h
    by_cases hc : c = '\n'
    · rw [splitFirstNl, if_pos hc] at h
      injection h with h'
      have hr : rest = r := congrArg Prod.snd h'
      subst hr
      simp
    · rw [splitFirstNl, if_neg hc] at h
      cases hrest : splitFirstNl rest with
      | none => rw [hrest] at h; simp at h
      | some p =>
        rw [hrest] at h
        injection h with h'
        have hr : p.2 = r := congrArg Prod.snd h'
        have hlt := ih p.1 p.2 (by rw [hrest])
        rw [← hr]
        calc p.2.length < rest.length := hlt
          _ < (c :: rest).length := by simp

/-- Induction along the first-line decomposition of a text. -/
theorem lineInduction (motive : List Char → Prop)
    (h1 : ∀ b, splitFirstNl b = none → motive b)
    (h2 : ∀ b l r, splitFirstNl b = some (l, r) → motive r → motive b) :
    ∀ b, motive b := by
  have key : ∀ (n : Nat) (b : List Char), b.length ≤ n → motive b := by
    intro n
    induction n with
    | zero =>
      intro b hb
      have hbn : b = [] := List.length_eq_zero.mp (Nat.le_zero.mp hb)
      subst hbn
      exact h1 [] rfl
    | succ n ihn =>
      intro b hb
      cases hsp : splitFirstNl b with
      | none => exact h1 b hsp
      | some p =>
        have hlt := splitFirstNl_length b p.1 p.2 (by rw [hsp])
        exact h2 b p.1 p.2 (by rw [hsp]) (ihn p.2 (by omega))
  exact fun b => key b.length b le_rfl

theorem splitFirstNl_none (b : List Char) (h : splitFirstNl b = none) :
    splitNl b = [b] := by
  induction b with
  | nil => simp [splitNl]
  | cons c rest ih =>
    rw [splitFirstNl] at h
    by_cases hc : c = '\n'
    · simp [hc] at h
    · rw [if_neg hc] at h
      cases hrest : splitFirstNl rest with
      | none =>
        rw [splitNl, ih hrest]
        simp [hc]
      | some p => rw [hrest] at h; simp at h

theorem splitFirstNl_none_noNl (b : List Char) (h : splitFirstNl b = none) :
    '\n' ∉ b := by
  induction b with
  | nil => simp
  | cons c rest ih =>
    rw [splitFirstNl] at h
    by_cases hc : c = '\n'
    · simp [hc] at h
    · rw [if_neg hc] at h
      cases hrest : splitFirstNl rest with
      | none =>
        simp [ih hrest]
        exact fun hx => hc hx.symm
      | some p => rw [hrest] at h; simp at h

theorem noNl_splitFirstNl (b : List Char) (h : '\n' ∉ b) : splitFirstNl b = none := by
  induction b with
  | nil => rfl
  | cons c rest ih =>
    rw [splitFirstNl]
    have hc : c ≠ '\n' := by intro hx; exact h (by simp [hx])
    rw [if_neg hc, ih (by intro hx; exact h (by simp [hx]))]
    rfl

theorem splitFirstNl_some (b l r : List Char) (h : splitFirstNl b = some (l, r)) :
    splitNl b = l :: splitNl r := by
  induction b generalizing l with
  | nil => simp [splitFirstNl] at h
  | cons c rest ih =>
    rw [splitFirstNl] at h
    by_cases hc : c = '\n'
    · rw [if_pos hc] at h
      injection h with h'
      have h1 : [] = l := congrArg Prod.fst h'
      have h2 : rest = r := congrArg Prod.snd h'
      subst h1; subst h2
      rw [splitNl, if_pos hc]
    · rw [if_neg hc] at h
      cases hrest : splitFirstNl rest with
      | none => rw [hrest] at h; simp at h
      | some p =>
        rw [hrest] at h
        injection h with h'
        have h1 : c :: p.1 = l := congrArg Prod.fst h'
        have h2 : p.2 = r := congrArg Prod.snd h'
        subst h2
        have ihp := ih p.1 hrest
        rw [splitNl, if_neg hc, ihp]
        simp [← h1]

theorem splitFirstNl_decomp (b l r : List Char) (h : splitFirstNl b = some (l, r)) :
    b = l ++ '\n' :: r ∧ '\n' ∉ l := by
  induction b generalizing l with
  | nil => simp [splitFirstNl] at h
  | cons c rest ih =>
    rw [splitFirstNl] at h
    by_cases hc : c = '\n'
    · rw [if_pos hc] at h
      injection h with h'
      have h1 : [] = l := congrArg Prod.fst h'
      have h2 : rest = r := congrArg Prod.snd h'
      subst h1; subst h2; subst hc
      simp
    · rw [if_neg hc] at h
      cases hrest : splitFirstNl rest with
      | none => rw [hrest] at h; simp at h
      | some p =>
        rw [hrest] at h
        injection h with h'
        have h1 : c :: p.1 = l := congrArg Prod.fst h'
        have h2 : p.2 = r := congrArg Prod.snd h'
        subst h2
        obtain ⟨hd, hnl⟩ := ih p.1 hrest
        subst h1
        refine ⟨by rw [hd]; simp, ?_⟩
        simp [hnl]
        exact fun hx => hc hx.symm

theorem lastPart_noNl (b : List Char) (h : '\n' ∉ b) : lastPart b = b := by
  rw [lastPart, splitFirstNl_none b (noNl_splitFirstNl b h)]
  rfl

theorem lastPart_of_some (b l r : List Char) (h : splitFirstNl b = some (l, r)) :
    lastPart b = lastPart r := by
  rw [lastPart, splitFirstNl_some b l r h, List.getLastD_cons, lastPart]
  cases hz : splitNl r with
  | nil => exact absurd hz (splitNl_ne_nil r)
  | cons a as => rw [List.getLastD_cons, List.getLastD_cons]

theorem splitNl_noNl_append (x z : List Char) (h : '\n' ∉ x) :
    splitNl (x ++ z) = (x ++ (splitNl z).headD []) :: (splitNl z).tail := by
  induction x with
  | nil =>
    simp
    cases hz : splitNl z with
    | nil => exact absurd hz (splitNl_ne_nil z)
    | cons a as => simp
  | cons c rest ih =>
    have hc : c ≠ '\n' := by intro hx; exact h (by simp [hx])
    rw [List.cons_append, splitNl, if_neg hc, ih (by intro hx; exact h (by simp [hx]))]
    simp

theorem splitNl_append (x y : List Char) :
    splitNl (x ++ y) = (splitNl x).dropLast ++ splitNl (lastPart x ++ y) := by
  induction x using lineInduction with
  | h1 x hx =>
    rw [splitFirstNl_none x hx, lastPart_noNl x (splitFirstNl_none_noNl x hx)]
    simp
  | h2 x l r hx ih =>
    obtain ⟨hd, hnl⟩ := splitFirstNl_decomp x l r hx
    have hstep : splitNl (x ++ y) = l :: splitNl (r ++ y) := by
      rw [hd, List.append_assoc, List.cons_append,
        splitNl_noNl_append l ('\n' :: (r ++ y)) hnl]
      rw [splitNl, if_pos rfl]
      simp
    rw [hstep, splitFirstNl_some x l r hx, lastPart_of_some x l r hx]
    have hdrop : (l :: splitNl r).dropLast = l :: (splitNl r).dropLast := by
      have hc : l :: splitNl r = [l] ++ splitNl r := rfl
      rw [hc, List.dropLast_append_of_ne_nil [l] (splitNl_ne_nil r)]
      rfl
    rw [hdrop, List.cons_append, ih]

theorem lastPart_append (x y : List Char) :
    lastPart (x ++ y) = lastPart (lastPart x ++ y) := by
  rw [lastPart, splitNl_append x y, List.getLastD_eq_getLast?,
    List.getLast?_append_of_ne_nil _ (splitNl_ne_nil (lastPart x ++ y)),
    ← List.getLastD_eq_getLast?]
  rfl

theorem noNl_lastPart (b : List Char) : '\n' ∉ lastPart b := by
  induction b using lineInduction with
  | h1 b hb =>
    rw [lastPart_noNl b (splitFirstNl_none_noNl b hb)]
    exact splitFirstNl_none_noNl b hb
  | h2 b l r hb ih =>
    rw [lastPart_of_some b l r hb]
    exact ih

theorem processBuffer_eq (b : List Char) :
    processBuffer b =
      ((((splitNl b).dropLast).filter (fun l => !isBlank l)).map (fun l => l ++ ['\n']),
        lastPart b) := by
  induction b using lineInduction with
  | h1 b hb =>
    rw [processBuffer]
    split
    · rw [splitFirstNl_none b hb, lastPart_noNl b (splitFirstNl_none_noNl b hb)]
      simp
    · rename_i heq
      rw [hb] at heq
      exact absurd heq (by simp)
  | h2 b l r hb ih =>
    rw [processBuffer]
    split
    · rename_i heq
      rw [hb] at heq
      simp at heq
    · rename_i l' r' heq
      rw [hb] at heq
      injection heq with h'
      have h1 : l = l' := congrArg Prod.fst h'
      have h2 : r = r' := congrArg Prod.snd h'
      subst h1; subst h2
      rw [ih, splitFirstNl_some b l r hb, lastPart_of_some b l r hb]
      have hdrop : (l :: splitNl r).dropLast = l :: (splitNl r).dropLast := by
        have hc : l :: splitNl r = [l] ++ splitNl r := rfl
        rw [hc, List.dropLast_append_of_ne_nil [l] (splitNl_ne_nil r)]
        rfl
      rw [hdrop]
      by_cases hbl : isBlank l
      · simp [hbl]
      · simp [hbl]

theorem stream_proxy_run_eq (chunks : List (List Char)) (buffer : List Char)
    (hb : '\n' ∉ buffer) :
    stream_proxy_run buffer chunks =
      (((splitNl (buffer ++ chunks.flatten)).dropLast).filter (fun l => !isBlank l)).map
        (fun l => l ++ ['\n']) := by
  induction chunks generalizing buffer with
  | nil =>
    rw [stream_proxy_run]
    rw [List.flatten_nil, List.append_nil,
      splitFirstNl_none buffer (noNl_splitFirstNl buffer hb)]
    simp
  | cons ch rest ih =>
    rw [stream_proxy_run]
    simp only [processBuffer_eq]
    rw [ih (lastPart (buffer ++ ch)) (noNl_lastPart _)]
    rw [List.flatten_cons, ← List.append_assoc]
    rw [splitNl_append (buffer ++ ch) rest.flatten]
    rw [List.dropLast_append_of_ne_nil _ (splitNl_ne_nil _)]
    rw [List.filter_append, List.map_append]

theorem stream_proxy_final_buffer_eq (chunks : List (List Char)) (buffer : List Char)
    (hb : '\n' ∉ buffer) :
    stream_proxy_final_buffer buffer chunks = lastPart (buffer ++ chunks.flatten) := by
  induction chunks generalizing buffer with
  | nil =>
    rw [stream_proxy_final_buffer, List.flatten_nil, List.append_nil, lastPart_noNl buffer hb]
  | cons ch rest ih =>
    rw [stream_proxy_final_buffer]
    simp only [processBuffer_eq]
    rw [ih (lastPart (buffer ++ ch)) (noNl_lastPart _)]
    rw [List.flatten_cons, ← List.append_assoc, lastPart_append (buffer ++ ch) rest.flatten]

theorem relayLines_eq (ls : List (List Char)) :
    relayLines ls = (ls.filter (fun l => !isBlank l)).map (fun l => l ++ ['\n', '\n']) := by
  induction ls with
  | nil => rfl
  | cons l rest ih =>
    rw [relayLines]
    by_cases hbl : isBlank l
    · simp [hbl, ih]
    · simp [hbl, ih]

end ArkApi

namespace ArkApi

theorem lastPart_ne_nil : ∀ (b : List Char),
    b.getLast? ≠ some '\n' → b ≠ [] → lastPart b ≠ [] := by
  intro b
  induction b using lineInduction with
  | h1 b h =>
    intro _ hne
    rw [lastPart_noNl b (splitFirstNl_none_noNl b h)]
    exact hne
  | h2 b l r h ih =>
    intro hb hne
    obtain ⟨hd, hnl⟩ := splitFirstNl_decomp b l r h
    rw [lastPart_of_some b l r h]
    cases hr : r with
    | nil =>
      exfalso
      apply hb
      rw [hd, hr]
      rw [List.getLast?_append_of_ne_nil l (by simp : ('\n' :: ([] : List Char)) ≠ [])]
      rfl
    | cons c cs =>
      have hb' : r.getLast? ≠ some '\n' := by
        intro hx
        apply hb
        rw [hd, List.getLast?_append_of_ne_nil l (by simp : ('\n' :: r) ≠ [])]
        rw [hr, List.getLast?_cons_cons, ← hr]
        exact hx
      subst hr
      exact ih hb' (by simp)

end ArkApi

namespace ArkApi

/-- Claim C1: the streaming capability resolver never raises to its
caller: when the job fetch fails, when the memory fetch fails, when any
step of the body raises, and when the capability annotation is unset or
not `"true"`, it returns `none` (no streaming URL) rather than propagating
an error, so the caller can always fall back. -/
theorem try_get_streaming_url_never_raises :
    ∀ (c : ArkClient) (query_name : String),
      (∀ e, c.getQuery query_name = .error e →
        try_get_streaming_url c query_name = none) ∧
      (∀ q e, c.getQuery query_name = .ok q →
        c.getMemory (resolveMemoryName q) = .error e →
        try_get_streaming_url c query_name = none) ∧
      (∀ e, try_get_streaming_url_body c query_name = .error e →
        try_get_streaming_url c query_name = none) ∧
      (∀ q m, c.getQuery query_name = .ok q →
        c.getMemory (resolveMemoryName q) = .ok m →
        lookupKey m.annots memoryEventStreamKey ≠ some "true" →
        try_get_streaming_url c query_name = none) := by
  intro c query_name
  refine ⟨?_, ?_, ?_, ?_⟩
  · intro e hq
    simp [try_get_streaming_url, try_get_streaming_url_body, hq]
  · intro q e hq hm
    simp [try_get_streaming_url, try_get_streaming_url_body, hq, hm]
  · intro e hbody
    simp [try_get_streaming_url, hbody]
  · intro q m hq hm hcap
    simp [try_get_streaming_url, try_get_streaming_url_body, hq, hm, hcap]

/-- Witness for C1: the resolver returns `none` on a concrete failing job
fetch, a concrete failing memory fetch, and a concrete memory without the
capability annotation. -/
theorem try_get_streaming_url_never_raises_witness :
    try_get_streaming_url clientAllFail "q1" = none ∧
    try_get_streaming_url clientMemFail "q1" = none ∧
    try_get_streaming_url clientNoCap "q1" = none :=
  ⟨(try_get_streaming_url_never_raises clientAllFail "q1").1
      ⟨"connection refused"⟩ rfl,
   (try_get_streaming_url_never_raises clientMemFail "q1").2.1
      plainQuery ⟨"not found"⟩ rfl rfl,
   (try_get_streaming_url_never_raises clientNoCap "q1").2.2.2
      plainQuery ⟨[], some "https://mem.example"⟩ rfl rfl (by decide)⟩

/-- Claim C5: given that the job fetch and memory fetch succeed, the
resolver yields a URL exactly when the memory capability annotation is the
exact string `"true"` and the memory status carries a (non-empty) resolved
address; the URL is then the resolved base address followed by the job id
path segment, the replay-from-beginning parameter and the fixed 30-unit
wait-window parameter. -/
theorem try_get_streaming_url_characterisation :
    ∀ (c : ArkClient) (query_name : String) (q : QueryResource) (m : MemoryResource),
      c.getQuery query_name = .ok q →
      c.getMemory (resolveMemoryName q) = .ok m →
      (((try_get_streaming_url c query_name).isSome) ↔
        (lookupKey m.annots memoryEventStreamKey = some "true" ∧
          ∃ a, m.lastResolvedAddress = some a ∧ a ≠ "")) ∧
      (∀ a, lookupKey m.annots memoryEventStreamKey = some "true" →
        m.lastResolvedAddress = some a → a ≠ "" →
        try_get_streaming_url c query_name =
          some (a ++ "/stream/" ++ query_name ++ "?from-beginning=true&wait-for-query=30s")) := by
  intro c query_name q m hq hm
  constructor
  · by_cases hcap : lookupKey m.annots memoryEventStreamKey = some "true"
    · cases haddr : m.lastResolvedAddress with
      | none =>
        simp [try_get_streaming_url, try_get_streaming_url_body, hq, hm, hcap, haddr]
      | some a =>
        by_cases ha : a = ""
        · simp [try_get_streaming_url, try_get_streaming_url_body, hq, hm, hcap, haddr, ha]
        · simp [try_get_streaming_url, try_get_streaming_url_body, hq, hm, hcap, haddr, ha]
    · simp [try_get_streaming_url, try_get_streaming_url_body, hq, hm, hcap]
  · intro a hcap haddr ha
    simp [try_get_streaming_url, try_get_streaming_url_body, hq, hm, hcap, haddr, ha]

/-- Witness for C5: with capability `"true"` and resolved address
`https://mem.example`, the resolver returns the concrete streaming URL. -/
theorem try_get_streaming_url_characterisation_witness :
    try_get_streaming_url clientStreamReady "q1" =
      some "https://mem.example/stream/q1?from-beginning=true&wait-for-query=30s" := by
  have h := (try_get_streaming_url_characterisation clientStreamReady "q1" plainQuery
    ⟨[("ark.mckinsey.com/memory-event-stream-enabled", "true")], some "https://mem.example"⟩
    rfl rfl).2 "https://mem.example" (by decide) rfl (by decide)
  simpa using h

/-- Claim C2 (amended): the relay forwards exactly the non-blank lines of
the upstream body (those non-empty after stripping whitespace; blank lines
including whitespace-only ones are dropped), one event per line, in order
and with content preserved: on the OpenAI-compatible path every line of
the body is considered and each forwarded line is followed by a blank line
(double newline), while on the raw internal path the complete
newline-terminated lines are considered and each forwarded line is
newline-terminated. -/
theorem relay_forwards_nonblank_lines :
    (∀ body : List Char,
      proxy_streaming_response 200 body =
        ((aiterLines body).filter (fun l => !isBlank l)).map (fun l => l ++ ['\n', '\n'])) ∧
    (∀ chunks : List (List Char),
      stream_proxy 200 chunks =
        (((splitNl chunks.flatten).dropLast).filter (fun l => !isBlank l)).map
          (fun l => l ++ ['\n'])) := by
  constructor
  · intro body
    rw [proxy_streaming_response, if_neg (by decide), relayLines_eq]
  · intro chunks
    rw [stream_proxy, if_neg (by decide), stream_proxy_run_eq chunks [] (by simp)]
    rfl

/-- Claim C2 as stated is false at a concrete input: on the upstream body
"a\n \nb\n" the whitespace-only line " " is non-empty, yet the
OpenAI-compatible relay does not forward it — the relay does not forward
exactly the non-empty lines. -/
theorem relay_nonempty_lines_counterexample :
    (aiterLines "a\n \nb\n".data).filter (fun l => !l.isEmpty) =
      ["a".data, " ".data, "b".data] ∧
    proxy_streaming_response 200 "a\n \nb\n".data = ["a\n\n".data, "b\n\n".data] ∧
    ¬ (proxy_streaming_response 200 "a\n \nb\n".data =
      ((aiterLines "a\n \nb\n".data).filter (fun l => !l.isEmpty)).map
        (fun l => l ++ ['\n', '\n'])) := by
  refine ⟨by decide, by decide, by decide⟩

/-- Claim C4: when the upstream status is not 200 success, the
OpenAI-compatible relay terminates immediately and emits nothing further,
while the raw internal relay emits exactly one synthetic error event — a
data line naming the upstream status — and then terminates. -/
theorem relay_non_success :
    ∀ (status : Nat) (body : List Char) (chunks : List (List Char)),
      status ≠ 200 →
      proxy_streaming_response status body = [] ∧
      stream_proxy status chunks = [memoryErrorEvent status] ∧
      memoryErrorEvent status =
        ("data: \x7b\"error\": \"Memory service returned " ++ toString status ++
          "\"\x7d\n\n").data := by
  intro status body chunks h
  refine ⟨?_, ?_, rfl⟩
  · rw [proxy_streaming_response, if_pos h]
  · rw [stream_proxy, if_pos h]

/-- Witness for C4 at upstream status 503: the OpenAI-compatible relay
yields nothing and the raw relay yields exactly the one error event. -/
theorem relay_non_success_witness :
    proxy_streaming_response 503 "x".data = [] ∧
    stream_proxy 503 ["x".data] = [memoryErrorEvent 503] ∧
    memoryErrorEvent 503 =
      "data: \x7b\"error\": \"Memory service returned 503\"\x7d\n\n".data := by
  have h := relay_non_success 503 "x".data ["x".data] (by decide)
  exact ⟨h.1, h.2.1, by decide⟩

/-- Claim C8: on the raw streaming endpoint, when the upstream body text
does not end with a newline, the final partial line stays in the proxy's
buffer (non-empty for a non-empty body) and is never forwarded: the
relayed output is exactly the complete newline-terminated non-blank lines
of the body. -/
theorem stream_proxy_trailing_partial :
    ∀ chunks : List (List Char),
      (chunks.flatten).getLast? ≠ some '\n' →
      stream_proxy_final_buffer [] chunks = lastPart chunks.flatten ∧
      (chunks.flatten ≠ [] → lastPart chunks.flatten ≠ []) ∧
      stream_proxy 200 chunks =
        (((splitNl chunks.flatten).dropLast).filter (fun l => !isBlank l)).map
          (fun l => l ++ ['\n']) := by
  intro chunks h
  refine ⟨?_, ?_, ?_⟩
  · rw [stream_proxy_final_buffer_eq chunks [] (by simp)]
    rfl
  · intro hne
    exact lastPart_ne_nil chunks.flatten h hne
  · rw [stream_proxy, if_neg (by decide), stream_proxy_run_eq chunks [] (by simp)]
    rfl

/-- Witness for C8: on body "a\nb" the complete line is forwarded and the
partial line "b" remains in the buffer, unforwarded. -/
theorem stream_proxy_trailing_partial_witness :
    stream_proxy 200 [['a', '\n', 'b']] = [['a', '\n']] ∧
    stream_proxy_final_buffer [] [['a', '\n', 'b']] = ['b'] := by
  have h := stream_proxy_trailing_partial [['a', '\n', 'b']] (by decide)
  exact ⟨h.2.2.trans (by decide), h.1.trans (by decide)⟩

end ArkApi

namespace ArkApi

/-- Claim C3: on the raw job streaming endpoint, a query whose streaming
annotation is not `"true"` fails with a 400 client error independently of
the memory collaborator (so before any memory fetch or connection
attempt); a streaming-enabled query whose fetched memory status carries no
resolved address (absent or empty) fails with a 502 error; otherwise the
endpoint returns a `text/plain; charset=utf-8` line-framed streaming
response with permissive CORS headers. -/
theorem stream_query_gating :
    ∀ (q : QueryResource) (gm gm' : String → Except ArkErr MemoryResource),
      (lookupKey q.annots streamingEnabledKey ≠ some "true" →
        stream_query q gm = .http ⟨400, "Streaming not enabled for this query"⟩ ∧
        stream_query q gm = stream_query q gm') ∧
      (∀ m, lookupKey q.annots streamingEnabledKey = some "true" →
        gm (resolveMemoryName q) = .ok m →
        (m.lastResolvedAddress = none ∨ m.lastResolvedAddress = some "") →
        stream_query q gm = .http ⟨502, "Memory service address not resolved"⟩) ∧
      (∀ m a, lookupKey q.annots streamingEnabledKey = some "true" →
        gm (resolveMemoryName q) = .ok m →
        m.lastResolvedAddress = some a → a ≠ "" →
        stream_query q gm =
          .ok ⟨"text/plain; charset=utf-8",
            [("Cache-Control", "no-cache"), ("Connection", "keep-alive"),
              ("Access-Control-Allow-Origin", "*"), ("Access-Control-Allow-Headers", "*")],
            a ++ "/stream/" ++ sessionIdOf q⟩) := by
  intro q gm gm'
  refine ⟨?_, ?_, ?_⟩
  · intro hcap
    constructor
    · simp [stream_query, hcap]
    · simp [stream_query, hcap]
  · intro m hcap hm haddr
    rcases haddr with h0 | h0 <;> simp [stream_query, hcap, hm, h0]
  · intro m a hcap hm haddr ha
    simp [stream_query, hcap, hm, haddr, ha]

/-- Witness for C3: the three concrete outcomes — 400 without the
annotation, 502 without an address, and the streaming response with its
media type and CORS headers otherwise. -/
theorem stream_query_gating_witness :
    stream_query plainQuery getMemoryAddr =
      .http ⟨400, "Streaming not enabled for this query"⟩ ∧
    stream_query streamOnQuery getMemoryNoAddr =
      .http ⟨502, "Memory service address not resolved"⟩ ∧
    stream_query streamOnQuery getMemoryAddr =
      .ok ⟨"text/plain; charset=utf-8",
        [("Cache-Control", "no-cache"), ("Connection", "keep-alive"),
          ("Access-Control-Allow-Origin", "*"), ("Access-Control-Allow-Headers", "*")],
        "http://mem:8080/stream/uid-1"⟩ := by
  refine ⟨((stream_query_gating plainQuery getMemoryAddr getMemoryFail).1 (by decide)).1,
    ?_, ?_⟩
  · exact (stream_query_gating streamOnQuery getMemoryNoAddr getMemoryNoAddr).2.1
      ⟨[], none⟩ (by decide) rfl (Or.inl rfl)
  · have h := (stream_query_gating streamOnQuery getMemoryAddr getMemoryAddr).2.2
      ⟨[], some "http://mem:8080"⟩ "http://mem:8080" (by decide) rfl rfl (by decide)
    exact h.trans (by decide)

/-- Claim C9: the raw streaming endpoint never consults the memory's
event-stream capability annotation: when the query's own streaming
annotation is `"true"` and the fetched memory carries a resolved address,
the stream is opened even though the memory's capability annotation is
absent or not `"true"`, and the outcome is unchanged under any replacement
of the memory's annotations that keeps the same resolved address. -/
theorem stream_query_ignores_memory_capability :
    ∀ (q : QueryResource) (gm gm' : String → Except ArkErr MemoryResource)
      (m m' : MemoryResource) (a : String),
      lookupKey q.annots streamingEnabledKey = some "true" →
      gm (resolveMemoryName q) = .ok m →
      m.lastResolvedAddress = some a → a ≠ "" →
      lookupKey m.annots memoryEventStreamKey ≠ some "true" →
      gm' (resolveMemoryName q) = .ok m' →
      m'.lastResolvedAddress = m.lastResolvedAddress →
      stream_query q gm =
        .ok ⟨"text/plain; charset=utf-8",
          [("Cache-Control", "no-cache"), ("Connection", "keep-alive"),
            ("Access-Control-Allow-Origin", "*"), ("Access-Control-Allow-Headers", "*")],
          a ++ "/stream/" ++ sessionIdOf q⟩ ∧
      stream_query q gm = stream_query q gm' := by
  intro q gm gm' m m' a hcap hm haddr ha _hnomem hm' haddr'
  constructor
  · simp [stream_query, hcap, hm, haddr, ha]
  · rw [haddr] at haddr'
    simp [stream_query, hcap, hm, hm', haddr, haddr', ha]

/-- Witness for C9: with the memory capability annotation absent (and,
for the second fetch, explicitly "false"), the raw endpoint still opens
the stream and the outcome does not change with the annotations. -/
theorem stream_query_ignores_memory_capability_witness :
    stream_query streamOnQuery getMemoryAddr =
      .ok ⟨"text/plain; charset=utf-8",
        [("Cache-Control", "no-cache"), ("Connection", "keep-alive"),
          ("Access-Control-Allow-Origin", "*"), ("Access-Control-Allow-Headers", "*")],
        "http://mem:8080/stream/uid-1"⟩ ∧
    stream_query streamOnQuery getMemoryAddr =
      stream_query streamOnQuery getMemoryAddrOther := by
  have h := stream_query_ignores_memory_capability streamOnQuery getMemoryAddr
    getMemoryAddrOther ⟨[], some "http://mem:8080"⟩
    ⟨[("ark.mckinsey.com/memory-event-stream-enabled", "false")], some "http://mem:8080"⟩
    "http://mem:8080" (by decide) rfl rfl (by decide) (by decide) rfl rfl
  exact ⟨h.1.trans (by decide), h.2⟩

/-- Claim C6 (amended): `_parse_timestamp` falls back to the current
server time only when the creation timestamp is absent from the metadata
(or empty, which Python truthiness treats as absent); a present malformed
timestamp does not fall back — it raises a `ValueError` that propagates to
the caller — and a well-formed timestamp yields its epoch conversion. -/
theorem parse_timestamp_behaviour :
    ∀ (md : ResMeta) (now : Int),
      ((md.creationTimestamp = none ∨ md.creationTimestamp = some "") →
        _parse_timestamp md now = .ok now) ∧
      (∀ ts t, md.creationTimestamp = some ts → strptimeIso ts = some t →
        _parse_timestamp md now = .ok (mktimeModel t)) ∧
      (∀ ts, md.creationTimestamp = some ts → ts ≠ "" → strptimeIso ts = none →
        _parse_timestamp md now =
          .error ⟨"ValueError: time data does not match format"⟩) := by
  intro md now
  refine ⟨?_, ?_, ?_⟩
  · rintro (h | h) <;> simp [_parse_timestamp, h]
  · intro ts t hts hp
    by_cases he : ts = ""
    · subst he
      exact absurd hp (by simp [show strptimeIso "" = none from rfl])
    · simp [_parse_timestamp, hts, he, hp]
  · intro ts hts he hp
    simp [_parse_timestamp, hts, he, hp]

/-- Claim C6 as stated is false at a concrete input: a present but
malformed creation timestamp makes `_parse_timestamp` raise instead of
falling back to the current time. -/
theorem parse_timestamp_raises_counterexample :
    _parse_timestamp ⟨some "agent-1", some "not-a-timestamp"⟩ 1700000000 =
      .error ⟨"ValueError: time data does not match format"⟩ ∧
    _parse_timestamp ⟨some "agent-1", some "not-a-timestamp"⟩ 1700000000 ≠
      .ok 1700000000 := by
  constructor
  · rfl
  · intro hx
    rw [show _parse_timestamp ⟨some "agent-1", some "not-a-timestamp"⟩ 1700000000 =
      Except.error ⟨"ValueError: time data does not match format"⟩ from rfl] at hx
    exact Except.noConfusion hx

/-- Witness for C6 (amended): the fallback on an absent timestamp, the
epoch conversion of a well-formed timestamp, and the error on a malformed
one, each at a concrete input. -/
theorem parse_timestamp_behaviour_witness :
    _parse_timestamp ⟨some "a", none⟩ 42 = .ok 42 ∧
    _parse_timestamp ⟨some "a", some "2024-01-02T03:04:05Z"⟩ 42 =
      .ok (mktimeModel ⟨2024, 1, 2, 3, 4, 5⟩) ∧
    _parse_timestamp ⟨some "a", some "02-01-2024"⟩ 42 =
      .error ⟨"ValueError: time data does not match format"⟩ := by
  refine ⟨(parse_timestamp_behaviour ⟨some "a", none⟩ 42).1 (Or.inl rfl),
    (parse_timestamp_behaviour ⟨some "a", some "2024-01-02T03:04:05Z"⟩ 42).2.1
      "2024-01-02T03:04:05Z" ⟨2024, 1, 2, 3, 4, 5⟩ rfl (by decide),
    (parse_timestamp_behaviour ⟨some "a", some "02-01-2024"⟩ 42).2.2
      "02-01-2024" rfl (by decide) (by decide)⟩

end ArkApi

namespace ArkApi

theorem collectEntries_eq_map (kindTag : String) (now : Int) :
    ∀ items : List ResMeta, (∀ md ∈ items, cleanItem md = true) →
      collectEntries kindTag now items = items.map (fun md =>
        ⟨kindTag ++ "/" ++ md.name.getD "", "model",
          (match _parse_timestamp md now with | .ok v => v | .error _ => now),
          "ark"⟩) := by
  intro items
  induction items with
  | nil => intro _; rfl
  | cons md rest ih =>
    intro hclean
    have hmd := hclean md (by simp)
    have hname : ∃ n, md.name = some n := by
      cases hn : md.name with
      | none => rw [cleanItem, hn] at hmd; simp at hmd
      | some n => exact ⟨n, rfl⟩
    obtain ⟨n, hn⟩ := hname
    have hts : ∃ v, _parse_timestamp md now = .ok v := by
      cases hct : md.creationTimestamp with
      | none => exact ⟨now, by simp [_parse_timestamp, hct]⟩
      | some ts =>
        by_cases he : ts = ""
        · exact ⟨now, by simp [_parse_timestamp, hct, he]⟩
        · have hsome : (strptimeIso ts).isSome := by
            rw [cleanItem, hct] at hmd
            simp [he] at hmd
            exact hmd.2
          obtain ⟨t, ht⟩ := Option.isSome_iff_exists.mp hsome
          exact ⟨mktimeModel t, by simp [_parse_timestamp, hct, he, ht]⟩
    obtain ⟨v, hv⟩ := hts
    rw [collectEntries, hn]
    simp only [_create_model_entry, hv]
    rw [ih (fun md2 hmd2 => hclean md2 (by simp [hmd2])), List.map_cons]
    simp [hn, hv]

/-- Claim C7: on the models listing endpoint, a failing backend list call
for any kind contributes zero entries without failing the request: for
every combination of failing kinds (and any succeeding kinds whose items
are well-formed), the response data is exactly the concatenation of the
entries of every succeeding kind, and every entry id carries its kind
prefix. -/
theorem list_models_partial_failure :
    ∀ (now : Int) (agents teams models tools : Except ArkErr (List ResMeta)),
      cleanListing agents = true → cleanListing teams = true →
      cleanListing models = true → cleanListing tools = true →
      list_models now agents teams models tools =
        listedEntries "agent" now agents ++ listedEntries "team" now teams ++
          listedEntries "model" now models ++ listedEntries "tool" now tools ∧
      ∀ e ∈ list_models now agents teams models tools,
        ∃ kindTag n, kindTag ∈ (["agent", "team", "model", "tool"] : List String) ∧
          e.id = kindTag ++ "/" ++ n := by
  intro now agents teams models tools ha ht hm htl
  have hkind : ∀ (tag : String) (r : Except ArkErr (List ResMeta)),
      cleanListing r = true → collectKind tag now r = listedEntries tag now r := by
    intro tag r hr
    cases r with
    | error e => rfl
    | ok items =>
      rw [collectKind, listedEntries]
      refine collectEntries_eq_map tag now items ?_
      rw [cleanListing] at hr
      simpa [List.all_eq_true] using hr
  have hmain : list_models now agents teams models tools =
      listedEntries "agent" now agents ++ listedEntries "team" now teams ++
        listedEntries "model" now models ++ listedEntries "tool" now tools := by
    rw [list_models, hkind "agent" agents ha, hkind "team" teams ht,
      hkind "model" models hm, hkind "tool" tools htl]
  refine ⟨hmain, ?_⟩
  have hid : ∀ (tag : String) (r : Except ArkErr (List ResMeta)) (e : ModelEntry),
      e ∈ listedEntries tag now r → ∃ n, e.id = tag ++ "/" ++ n := by
    intro tag r e her
    cases r with
    | error _ => simp [listedEntries] at her
    | ok items =>
      rw [listedEntries] at her
      obtain ⟨md, _, rfl⟩ := List.mem_map.mp her
      exact ⟨md.name.getD "", rfl⟩
  intro e he
  rw [hmain] at he
  rcases List.mem_append.mp he with h1 | h4
  · rcases List.mem_append.mp h1 with h2 | h3
    · rcases List.mem_append.mp h2 with h5 | h6
      · obtain ⟨n, hn⟩ := hid "agent" agents e h5
        exact ⟨"agent", n, by simp, hn⟩
      · obtain ⟨n, hn⟩ := hid "team" teams e h6
        exact ⟨"team", n, by simp, hn⟩
    · obtain ⟨n, hn⟩ := hid "model" models e h3
      exact ⟨"model", n, by simp, hn⟩
  · obtain ⟨n, hn⟩ := hid "tool" tools e h4
    exact ⟨"tool", n, by simp, hn⟩

/-- Witness for C7: with the teams call failing and the other kinds
succeeding, the response holds exactly the agent and tool entries, each id
carrying its kind prefix. -/
theorem list_models_partial_failure_witness :
    list_models 1000 (.ok [⟨some "alpha", none⟩]) (.error ⟨"teams down"⟩)
        (.ok []) (.ok [⟨some "rev", none⟩]) =
      [⟨"agent/alpha", "model", 1000, "ark"⟩, ⟨"tool/rev", "model", 1000, "ark"⟩] := by
  have h := (list_models_partial_failure 1000 (.ok [⟨some "alpha", none⟩])
    (.error ⟨"teams down"⟩) (.ok []) (.ok [⟨some "rev", none⟩])
    (by decide) (by decide) (by decide) (by decide)).1
  exact h.trans (by decide)

/-- Claim C10: every chat-completion request is served entirely in the
"default" namespace: the created query resource carries namespace
"default", the collaborator client that every subsequent query/memory
lookup goes through is opened on "default", and so is the streaming
lookup when `stream=true`; since this holds for every request, no request
field can direct the work to another namespace. -/
theorem chat_completions_default_namespace :
    ∀ (request : ChatCompletionRequest) (uuidHex : String),
      (chat_completions request uuidHex).clientNamespace = "default" ∧
      (chat_completions request uuidHex).queryNamespace = "default" ∧
      (chat_completions request uuidHex).streamingLookupNamespace =
        (if request.stream then some "default" else none) :=
  fun _ _ => ⟨rfl, rfl, rfl⟩

end ArkApi
